import Mathlib

/-!
Verification of the form state-management library (useForm).

The definitions below are a shallow embedding of the current revision of
src/useForm.tsx together with its helpers (types.tsx, rules.tsx,
useDebounce.tsx, utils.tsx).  JavaScript runtime values are modelled by
the inductive type `Value` (with `undefined` for `undefined` and `null` for
`null`), nested form trees by the mutually inductive `Tree`/`Forest`
(object keys in insertion order), and per-field records by `FieldState`.
A field whose `touched`/`error` property is absent or `undefined` is
modelled with `none`.  Stateful React code (`setState` with functional
updates) is embedded as explicit state-passing: each binding operation
becomes a function from the state at invocation time to the next state,
together with the value its returned promise resolves to (when any).
-/

namespace ReactUseForm

/-- Model of a JavaScript runtime value as stored in form fields and
seed objects. -/
inductive Value where
  | undefined
  | null
  | str (s : String)
  | num (n : Int)
  | boolean (b : Bool)
  | arr (elems : List Value)
  | obj (fields : List (String × Value))

/-- A path of object keys, as produced by the recursive `forEach` walker. -/
abbrev Path := List String

/-- Property lookup on an object literal: first binding of the key,
`undefined` when missing (JavaScript member access). -/
def objLookup : List (String × Value) → String → Value
  | [], _ => .undefined
  | (k, v) :: rest, key => if k = key then v else objLookup rest key

/-- Element lookup on an array by a (string) key, as `lodash.get` does:
numeric keys index the array, others give `undefined`. -/
def arrIndex (elems : List Value) (key : String) : Value :=
  match key.toNat? with
  | some i => elems.getD i .undefined
  | none => .undefined

/-- Embedding of `lodash.get(value, path)`: walk the path, returning
`undefined` as soon as a segment is missing or the value is not
indexable. -/
def getPath : Value → Path → Value
  | v, [] => v
  | .obj fields, key :: rest => getPath (objLookup fields key) rest
  | .arr elems, key :: rest => getPath (arrIndex elems key) rest
  | _, _ :: _ => .undefined

/-- Whether a value is `undefined` or `null` (the values filtered out by
the JavaScript nullish-coalescing operator). -/
def isNullish : Value → Bool
  | .undefined => true
  | .null => true
  | _ => false

/-- JavaScript nullish coalescing `a ?? b`. -/
def nullishCoalesce (a b : Value) : Value :=
  if isNullish a then b else a

/-- Embedding of `isEmptyObject` from useForm.tsx: `undefined`, `null`,
the empty string, or an empty array. -/
def isEmptyObject : Value → Bool
  | .undefined => true
  | .null => true
  | .str "" => true
  | .arr [] => true
  | _ => false

/-- A validation rule `(value, state) => string | undefined`
(rules.tsx `ValidationRule`). -/
def Rule : Type := Value → Value → Option String

/-- Embedding of the built-in `required` rule from rules.tsx. -/
def required : Rule := fun value _ =>
  match value with
  | .undefined => some "This field is required"
  | .null => some "This field is required"
  | .str "" => some "This field is required"
  | _ => none

/-- Embedding of `maybeGetFirstValidationError` from useForm.tsx:
`rules.map(r => r(value, state)).find(_ => _ !== undefined)`. -/
def maybeGetFirstValidationError (value : Value) (state : Value) (rules : List Rule) :
    Option String :=
  ((rules.map (fun r => r value state)).find? (fun e => e.isSome)).join

/-- JavaScript truthiness of a `string | undefined` error, as used by
`if (error)` in `runValidation`: `undefined` and the empty string are
falsy. -/
def truthy : Option String → Bool
  | none => false
  | some s => s != ""

mutual
/-- A nested form tree: leaves are tagged payloads (`__type: 'Leaf'`),
branches are plain objects whose entries are further trees. -/
inductive Tree (α : Type) where
  | leaf (a : α)
  | branch (children : Forest α)
/-- The ordered key/subtree entries of a branch object. -/
inductive Forest (α : Type) where
  | nil
  | cons (key : String) (child : Tree α) (rest : Forest α)
end

/-- Lookup of a key among a branch node's entries (first match). -/
def lookupF {α : Type} : Forest α → String → Option (Tree α)
  | .nil, _ => none
  | .cons k t rest, key => if k = key then some t else lookupF rest key

/-- The leaf payload found at a path, if the path addresses a leaf. -/
def leafAt {α : Type} : Path → Tree α → Option α
  | [], .leaf a => some a
  | [], .branch _ => none
  | _ :: _, .leaf _ => none
  | key :: rest, .branch cs => (lookupF cs key).bind (fun t => leafAt rest t)

/-- Apply `g` to the subtree stored under `key` of a branch,
leaving other entries unchanged. -/
def updateForestAt {α : Type} (key : String) (g : Tree α → Tree α) :
    Forest α → Forest α
  | .nil => .nil
  | .cons k t rest =>
    if k = key then .cons k (g t) (updateForestAt key g rest)
    else .cons k t (updateForestAt key g rest)

/-- Embedding of `immer`-style targeted mutation via
`set(updatedState, [...path, field], v)`: rewrite the leaf record found
at `path` with `f`, leaving every other node untouched (a no-op when
the path does not address a leaf). -/
def updateLeafAt {α : Type} : Path → (α → α) → Tree α → Tree α
  | [], f, .leaf a => .leaf (f a)
  | [], _, .branch cs => .branch cs
  | _ :: _, _, .leaf a => .leaf a
  | key :: rest, f, .branch cs => .branch (updateForestAt key (updateLeafAt rest f) cs)

mutual
/-- Rewrite every leaf with `g`, which receives the leaf's full path;
this is the `produce(tree, forEach(tree, (path, leaf) => set(draft, path, ...)))`
pattern used throughout useForm.tsx. -/
def mapLeaves {α β : Type} (g : Path → α → β) : Path → Tree α → Tree β
  | pre, .leaf a => .leaf (g pre a)
  | pre, .branch cs => .branch (mapLeavesF g pre cs)
/-- Forest part of `mapLeaves`. -/
def mapLeavesF {α β : Type} (g : Path → α → β) : Path → Forest α → Forest β
  | _, .nil => .nil
  | pre, .cons k t rest => .cons k (mapLeaves g (pre ++ [k]) t) (mapLeavesF g pre rest)
end

mutual
/-- The `(path, leaf)` pairs visited by `forEach` (utils.tsx), in
depth-first insertion order. -/
def leavesOf {α : Type} : Path → Tree α → List (Path × α)
  | pre, .leaf a => [(pre, a)]
  | pre, .branch cs => leavesOfF pre cs
/-- Forest part of `leavesOf`. -/
def leavesOfF {α : Type} : Path → Forest α → List (Path × α)
  | _, .nil => []
  | pre, .cons k t rest => leavesOf (pre ++ [k]) t ++ leavesOfF pre rest
end

/-- Per-leaf state record (types.tsx `FieldState`): `touched` and
`error` are `none` when the underlying property is absent or
`undefined`. -/
structure FieldState where
  value : Value
  touched : Option Bool
  error : Option String
  rules : List Rule

/-- Per-leaf schema record (types.tsx `FieldDefinition`): `default` is
`Value.undefined` when not declared. -/
structure FieldDefinition where
  default : Value
  rules : List Rule

mutual
/-- Embedding of `extractValuesFromFieldsState` (useForm.tsx): replace
every leaf record by its bare `value`, keeping the branch-object
structure. -/
def extractValuesFromFieldsState : Tree FieldState → Value
  | .leaf fs => fs.value
  | .branch cs => .obj (extractF cs)
/-- Forest part of `extractValuesFromFieldsState`. -/
def extractF : Forest FieldState → List (String × Value)
  | .nil => []
  | .cons k t rest => (k, extractValuesFromFieldsState t) :: extractF rest
end

/-- Embedding of `getInitialState(fieldDefs, defaultValue)` from
useForm.tsx (lines 264-284): each leaf gets
`get(defaultValue, path) ?? defaultFieldValue` as its value and carries
the schema rules verbatim; no `touched` or `error` property is set. -/
def getInitialState (fieldDefs : Tree FieldDefinition) (defaultValue : Value) :
    Tree FieldState :=
  mapLeaves
    (fun path d =>
      { value := nullishCoalesce (getPath defaultValue path) d.default
        touched := none
        error := none
        rules := d.rules })
    [] fieldDefs

/-- The data a leaf binding closes over when `createFields` synthesizes
the binding tree: the leaf's path plus the `value`, `touched`, `error`
and `rules` read from the synthesis-time state. -/
structure Binding where
  path : Path
  value : Value
  touched : Option Bool
  error : Option String
  rules : List Rule

/-- The leaf binding synthesized at a path by `createFields`
(useForm.tsx lines 286-364), if the path addresses a leaf. -/
def bindingAt (state : Tree FieldState) (p : Path) : Option Binding :=
  (leafAt p state).map (fun fs =>
    { path := p, value := fs.value, touched := fs.touched
      error := fs.error, rules := fs.rules })

/-- Embedding of the `setValue` closure body (useForm.tsx lines
304-338), as the functional `setState` update it performs on the state
current at invocation time.  Returns the next state together with the
value the returned promise resolves to: `some (error === undefined)`
when `runValidation` was requested, `none` otherwise (no promise is
returned; fire-and-forget). -/
def setValueBody (b : Binding) (updatedValue : Value) (runValidationOpt : Bool)
    (currentState : Tree FieldState) : Tree FieldState × Option Bool :=
  let fieldValues := extractValuesFromFieldsState currentState
  if runValidationOpt then
    let error := maybeGetFirstValidationError updatedValue fieldValues b.rules
    (updateLeafAt b.path
      (fun fs => { fs with value := updatedValue, touched := some true, error := error })
      currentState,
      some error.isNone)
  else
    (updateLeafAt b.path
      (fun fs => { fs with value := updatedValue, touched := some true })
      currentState,
      none)

/-- Embedding of the leaf `validate` closure body (useForm.tsx lines
349-360): the whole-object value is extracted from the state current at
invocation time, but the validated `value` is the one captured from the
synthesis-time state (`b.value`). -/
def validateBody (b : Binding) (currentState : Tree FieldState) : Tree FieldState :=
  let fieldValues := extractValuesFromFieldsState currentState
  updateLeafAt b.path
    (fun fs => { fs with error := maybeGetFirstValidationError b.value fieldValues b.rules })
    currentState

/-- Embedding of `runValidation` (useForm.tsx lines 367-391), the
whole-form `validate`: against one snapshot, write each leaf's first
failing message at the leaf, and resolve the promise with the `isValid`
flag, which is flipped to `false` by `if (error)` (JavaScript
truthiness) as the leaves are visited in order. -/
def runValidationBody (state : Tree FieldState) : Tree FieldState × Bool :=
  let fieldValues := extractValuesFromFieldsState state
  let updatedState := mapLeaves
    (fun _ fs =>
      { fs with error := maybeGetFirstValidationError fs.value fieldValues fs.rules })
    [] state
  let isValid := (leavesOf [] state).foldl
    (fun acc pf =>
      if truthy (maybeGetFirstValidationError pf.2.value fieldValues pf.2.rules) then false
      else acc)
    true
  (updatedState, isValid)

/-- Embedding of `resetForm` (useForm.tsx lines 401-420): the next state
is built from the construction-time `initialState`, each leaf taking
`get(resetWithValue, path) ?? value` as its value, `undefined` as its
error and `false` as its touched flag.  An omitted override is
`Value.undefined`. -/
def resetForm (initialState : Tree FieldState) (resetWithValue : Value) :
    Tree FieldState :=
  mapLeaves
    (fun path fs =>
      { fs with value := nullishCoalesce (getPath resetWithValue path) fs.value
                error := none
                touched := some false })
    [] initialState

/-- Embedding of the `isTouched` aggregate (useForm.tsx lines 237-245):
`hasTouched = hasTouched || touched === true` over every leaf. -/
def isTouchedCalc (state : Tree FieldState) : Bool :=
  (leavesOf [] state).foldl (fun acc pf => acc || (pf.2.touched == some true)) false

/-- The value stored at a leaf path of a state tree. -/
def valueAt (s : Tree FieldState) (p : Path) : Option Value :=
  (leafAt p s).map (fun fs => fs.value)

/-- The touched flag stored at a leaf path of a state tree. -/
def touchedAt (s : Tree FieldState) (p : Path) : Option (Option Bool) :=
  (leafAt p s).map (fun fs => fs.touched)

/-- The error stored at a leaf path of a state tree. -/
def errorAt (s : Tree FieldState) (p : Path) : Option (Option String) :=
  (leafAt p s).map (fun fs => fs.error)

/-- The rule list stored at a leaf path of a state tree. -/
def rulesAt (s : Tree FieldState) (p : Path) : Option (List Rule) :=
  (leafAt p s).map (fun fs => fs.rules)

/-! ### Change notification bridge (useDebounce)

The `Option` configuration record of `useForm` (useForm.tsx lines
198-201) and the observable lifecycle of the debounced
`notifyValueChangeObserver` built from `useDebounce`
(useDebounce.tsx).  Real timers are abstracted into discrete events:
the debounced function being invoked, its trailing delay elapsing, the
React effect running, and the host unmounting the form. -/

/-- Embedding of the `Option` configuration type of `useForm`
(useForm.tsx lines 198-201).  Its only fields are `onStateChange` and
`delay`; the source declares no teardown-related flag. -/
structure FormOption where
  onStateChange : Option (Value → Unit)
  delay : Nat

/-- Discrete events of the debounced notification lifecycle. -/
inductive DebounceEvent where
  | invoke
  | timerFire
  | effectRun
  | unmount

/-- Observable state of the `useDebounce` machinery: whether the lodash
trailing timer is armed, whether the `triggerCallback` React flag is
set, whether the component is still mounted, and how many times the
wrapped callback has actually run. -/
structure DebounceState where
  timerPending : Bool
  triggerCallback : Bool
  mounted : Bool
  calls : Nat

/-- Transition function modelled from useDebounce.tsx: invoking the
returned function (re)arms the trailing timer; when the timer fires it
sets the `triggerCallback` state flag, which has no effect once the
component is unmounted (React state updates on an unmounted component
do not re-render); the effect consumes the flag and runs the callback,
and effects only run while mounted; the unmount cleanup merely flips
the (otherwise unread) `isMounted` ref — it neither cancels nor flushes
the lodash timer and never calls the callback itself. -/
def debounceStep (s : DebounceState) : DebounceEvent → DebounceState
  | .invoke => { s with timerPending := true }
  | .timerFire =>
    if s.timerPending then
      if s.mounted then { s with timerPending := false, triggerCallback := true }
      else { s with timerPending := false }
    else s
  | .effectRun =>
    if s.mounted && s.triggerCallback then
      { s with triggerCallback := false, calls := s.calls + 1 }
    else s
  | .unmount => { s with mounted := false }

/-- Run a sequence of debounce lifecycle events. -/
def debounceRun (s : DebounceState) (evs : List DebounceEvent) : DebounceState :=
  evs.foldl debounceStep s

/-! ### Concrete fixtures used by witnesses and counterexamples -/

/-- The cross-field rule of the specification scenario: an error when
`picture` is set while the sibling `description` (read from the
whole-object state) is empty. -/
def photoRule : Rule := fun value state =>
  if isEmptyObject value then none
  else if isEmptyObject (getPath state ["description"]) then
    some "To upload a photo, you need to add a description"
  else none

/-- Schema of the specification scenario: `description` (no rules) and
`picture` (the cross-field rule). -/
def photoDefs : Tree FieldDefinition :=
  .branch (.cons "description" (.leaf ⟨.undefined, []⟩)
    (.cons "picture" (.leaf ⟨.undefined, [photoRule]⟩) .nil))

/-- Seed `{description: null, picture: null}` of the scenario. -/
def photoSeed : Value := .obj [("description", .null), ("picture", .null)]

/-- State derived for the scenario. -/
def photoState : Tree FieldState := getInitialState photoDefs photoSeed

/-- The binding synthesized for the `picture` leaf of `photoState`. -/
def photoBinding : Binding := ⟨["picture"], .undefined, none, none, [photoRule]⟩

/-- Two-leaf schema used to exercise batched `setValue` calls. -/
def pairDefs : Tree FieldDefinition :=
  .branch (.cons "a" (.leaf ⟨.undefined, [required]⟩)
    (.cons "b" (.leaf ⟨.undefined, [required]⟩) .nil))

/-- State derived from `pairDefs` with no seed. -/
def pairState : Tree FieldState := getInitialState pairDefs .undefined

/-- A rule that always fails with the empty-string message. -/
def emptyMessageRule : Rule := fun _ _ => some ""

/-- One-leaf schema whose single rule fails with the empty-string
message. -/
def emptyMessageDefs : Tree FieldDefinition :=
  .branch (.cons "a" (.leaf ⟨.undefined, [emptyMessageRule]⟩) .nil)

/-- State derived from `emptyMessageDefs`. -/
def emptyMessageState : Tree FieldState := getInitialState emptyMessageDefs .undefined

/-- Schema of the whole-form validation scenario: a required `name` and
a rule-free `age`. -/
def nameAgeDefs : Tree FieldDefinition :=
  .branch (.cons "name" (.leaf ⟨.undefined, [required]⟩)
    (.cons "age" (.leaf ⟨.undefined, []⟩) .nil))

/-- State derived from `nameAgeDefs`. -/
def nameAgeState : Tree FieldState := getInitialState nameAgeDefs .undefined

/-- One-leaf schema with declared default `5`. -/
def numDefs : Tree FieldDefinition := .branch (.cons "a" (.leaf ⟨.num 5, []⟩) .nil)

/-- Initial state of `numDefs` with no seed. -/
def numInit : Tree FieldState := getInitialState numDefs .undefined

/-- A reset override carrying an explicit `null` at the leaf path. -/
def nullOverride : Value := .obj [("a", .null)]

/-- One-leaf schema with a single `required` rule, used to exhibit the
stale-value behaviour of the leaf `validate` binding. -/
def staleDefs : Tree FieldDefinition := .branch (.cons "a" (.leaf ⟨.undefined, [required]⟩) .nil)

/-- State derived from `staleDefs`: the `a` leaf holds `undefined`. -/
def staleState0 : Tree FieldState := getInitialState staleDefs .undefined

/-- The binding synthesized for `a` from `staleState0`; it captures the
leaf value `undefined` current at synthesis time. -/
def staleBinding : Binding := ⟨["a"], .undefined, none, none, [required]⟩

/-- The state after `a.setValue("x")` runs (same batch, no
re-synthesis). -/
def staleState1 : Tree FieldState := (setValueBody staleBinding (.str "x") false staleState0).1

/-- Schema used for seed-merging witnesses: five leaves with assorted
defaults. -/
def seedDefs : Tree FieldDefinition :=
  .branch (.cons "a" (.leaf ⟨.str "x", []⟩)
    (.cons "b" (.leaf ⟨.boolean true, []⟩)
      (.cons "c" (.leaf ⟨.num 7, []⟩)
        (.cons "d" (.leaf ⟨.num 5, []⟩)
          (.cons "e" (.leaf ⟨.str "dflt", []⟩) .nil)))))

/-- Seed carrying the falsy-but-defined values `""`, `false` and `0`, a
`null`, and no entry for `e`. -/
def seedObj : Value :=
  .obj [("a", .str ""), ("b", .boolean false), ("c", .num 0), ("d", .null)]

/-! ### Path-addressing lemmas -/

theorem lookupF_updateForestAt {α : Type} (key k : String) (g : Tree α → Tree α) :
    ∀ cs : Forest α, lookupF (updateForestAt key g cs) k =
      if key = k then (lookupF cs k).map g else lookupF cs k
  | .nil => by
    cases h : decide (key = k) <;> simp_all [updateForestAt, lookupF]
  | .cons k0 t rest => by
    have ih := lookupF_updateForestAt key k g rest
    by_cases h1 : k0 = key <;> by_cases h2 : k0 = k <;>
      simp_all [updateForestAt, lookupF]
    exact (if_neg (fun h => h1 h.symm)).symm

theorem leafAt_updateLeafAt_self {α : Type} (f : α → α) :
    ∀ (p : Path) (t : Tree α), leafAt p (updateLeafAt p f t) = (leafAt p t).map f
  | [], .leaf a => rfl
  | [], .branch _ => rfl
  | _ :: _, .leaf _ => rfl
  | key :: rest, .branch cs => by
    simp only [updateLeafAt, leafAt, lookupF_updateForestAt key key _ cs, if_pos rfl]
    cases lookupF cs key with
    | none => rfl
    | some t1 => simpa using leafAt_updateLeafAt_self f rest t1

theorem leafAt_updateLeafAt_other {α : Type} (f : α → α) :
    ∀ (p q : Path) (t : Tree α), p ≠ q →
      leafAt q (updateLeafAt p f t) = leafAt q t
  | [], q, .leaf a, h => by
    cases q with
    | nil => exact absurd rfl h
    | cons _ _ => rfl
  | [], _, .branch _, _ => rfl
  | _ :: _, _, .leaf _, _ => rfl
  | key :: rest, q, .branch cs, h => by
    cases q with
    | nil => rfl
    | cons q0 qrest =>
      simp only [updateLeafAt, leafAt, lookupF_updateForestAt key q0 _ cs]
      by_cases hk : key = q0
      · subst hk
        have hrest : rest ≠ qrest := fun he => h (by rw [he])
        simp only [if_pos rfl]
        cases lookupF cs key with
        | none => rfl
        | some t1 => simpa using leafAt_updateLeafAt_other f rest qrest t1 hrest
      · rw [if_neg hk]

theorem lookupF_mapLeavesF {α β : Type} (g : Path → α → β) (pre : Path) :
    ∀ (cs : Forest α) (k : String),
      lookupF (mapLeavesF g pre cs) k = (lookupF cs k).map (mapLeaves g (pre ++ [k]))
  | .nil, _ => rfl
  | .cons k0 t rest, k => by
    by_cases h : k0 = k <;> simp_all [mapLeavesF, lookupF, lookupF_mapLeavesF g pre rest k]

theorem leafAt_mapLeaves {α β : Type} (g : Path → α → β) :
    ∀ (p pre : Path) (t : Tree α),
      leafAt p (mapLeaves g pre t) = (leafAt p t).map (g (pre ++ p))
  | [], pre, .leaf a => by simp [mapLeaves, leafAt]
  | [], _, .branch _ => rfl
  | _ :: _, _, .leaf _ => rfl
  | key :: rest, pre, .branch cs => by
    simp only [mapLeaves, leafAt, lookupF_mapLeavesF g pre cs key]
    cases lookupF cs key with
    | none => rfl
    | some t1 =>
      simpa [List.append_assoc] using leafAt_mapLeaves g rest (pre ++ [key]) t1

mutual
theorem extract_mapLeaves_pres (g : Path → FieldState → FieldState)
    (hg : ∀ p fs, (g p fs).value = fs.value) :
    ∀ (pre : Path) (t : Tree FieldState),
      extractValuesFromFieldsState (mapLeaves g pre t) = extractValuesFromFieldsState t
  | pre, .leaf fs => by
    simp [mapLeaves, extractValuesFromFieldsState, hg]
  | pre, .branch cs => by
    simp [mapLeaves, extractValuesFromFieldsState, extractF_mapLeavesF_pres g hg pre cs]
theorem extractF_mapLeavesF_pres (g : Path → FieldState → FieldState)
    (hg : ∀ p fs, (g p fs).value = fs.value) :
    ∀ (pre : Path) (cs : Forest FieldState),
      extractF (mapLeavesF g pre cs) = extractF cs
  | _, .nil => rfl
  | pre, .cons k t rest => by
    simp [mapLeavesF, extractF, extract_mapLeaves_pres g hg (pre ++ [k]) t,
      extractF_mapLeavesF_pres g hg pre rest]
end

theorem objLookup_extractF :
    ∀ (cs : Forest FieldState) (k : String),
      objLookup (extractF cs) k =
        ((lookupF cs k).map extractValuesFromFieldsState).getD .undefined
  | .nil, _ => rfl
  | .cons k0 t rest, k => by
    by_cases h : k0 = k <;> simp_all [extractF, objLookup, lookupF, objLookup_extractF rest k]

/-- Reading the extracted whole-object value at a leaf path gives that
leaf's stored value. -/
theorem getPath_extract :
    ∀ (p : Path) (s : Tree FieldState) (fs : FieldState), leafAt p s = some fs →
      getPath (extractValuesFromFieldsState s) p = fs.value
  | [], .leaf a, fs, h => by
    simp only [leafAt, Option.some_inj] at h
    simp [extractValuesFromFieldsState, getPath, h]
  | [], .branch _, _, h => by simp [leafAt] at h
  | _ :: _, .leaf _, _, h => by simp [leafAt] at h
  | key :: rest, .branch cs, fs, h => by
    simp only [leafAt, Option.bind_eq_some] at h
    obtain ⟨t1, ht1, hleaf⟩ := h
    simp only [extractValuesFromFieldsState, getPath, objLookup_extractF cs key, ht1,
      Option.map_some, Option.getD_some]
    exact getPath_extract rest t1 fs hleaf

mutual
theorem leavesOf_mapLeaves {α β : Type} (g : Path → α → β) :
    ∀ (pre : Path) (t : Tree α),
      leavesOf pre (mapLeaves g pre t) = (leavesOf pre t).map (fun pf => (pf.1, g pf.1 pf.2))
  | _, .leaf _ => rfl
  | pre, .branch cs => leavesOfF_mapLeavesF g pre cs
theorem leavesOfF_mapLeavesF {α β : Type} (g : Path → α → β) :
    ∀ (pre : Path) (cs : Forest α),
      leavesOfF pre (mapLeavesF g pre cs) = (leavesOfF pre cs).map (fun pf => (pf.1, g pf.1 pf.2))
  | _, .nil => rfl
  | pre, .cons k t rest => by
    simp [mapLeavesF, leavesOfF, leavesOf_mapLeaves g (pre ++ [k]) t,
      leavesOfF_mapLeavesF g pre rest]
end

/-- An imperative `if (c) flag = false` loop over a list computes the
conjunction of the start flag with the absence of any element satisfying
`c`. -/
theorem foldl_guard_false {α : Type} (c : α → Bool) :
    ∀ (l : List α) (acc : Bool),
      l.foldl (fun a x => if c x then false else a) acc = (acc && l.all (fun x => !(c x)))
  | [], acc => by cases acc <;> rfl
  | x :: l, acc => by
    rw [List.foldl_cons, foldl_guard_false c l]
    cases h : c x <;> cases acc <;> simp [List.all_cons, h]

/-- An imperative `flag = flag || c x` loop over a list computes the
disjunction of the start flag with the existence of an element
satisfying `c`. -/
theorem foldl_or_any {α : Type} (c : α → Bool) :
    ∀ (l : List α) (acc : Bool),
      l.foldl (fun a x => a || c x) acc = (acc || l.any c)
  | [], acc => by cases acc <;> rfl
  | x :: l, acc => by
    rw [List.foldl_cons, foldl_or_any c l]
    cases h : c x <;> cases acc <;> simp [List.any_cons, h]

/-- Unfolding `getInitialState` at one leaf path. -/
theorem leafAt_getInitialState (defs : Tree FieldDefinition) (seed : Value) (P : Path)
    (d : FieldDefinition) (h : leafAt P defs = some d) :
    leafAt P (getInitialState defs seed) =
      some { value := nullishCoalesce (getPath seed P) d.default, touched := none,
             error := none, rules := d.rules } := by
  simp [getInitialState, leafAt_mapLeaves, h]

/-! ### Claim theorems -/

/-- Claim C3: initial-state derivation gives every leaf at path P the
initial value `get(O, P)` whenever that value is defined and non-null
(falsy values such as `0`, `false` and `""` included), and otherwise
the leaf schema's own declared default. -/
theorem getInitialState_seed_preference (defs : Tree FieldDefinition) (seed : Value)
    (P : Path) (d : FieldDefinition) (h : leafAt P defs = some d) :
    valueAt (getInitialState defs seed) P =
      some (if isNullish (getPath seed P) then d.default else getPath seed P) := by
  simp [valueAt, leafAt_getInitialState defs seed P d h, nullishCoalesce]

/-- Witness for C3 on `seedDefs`/`seedObj`: the falsy seed values `""`,
`false` and `0` are preserved, while `null` and a missing entry fall
back to the declared defaults. -/
theorem getInitialState_seed_preference_witness :
    valueAt (getInitialState seedDefs seedObj) ["a"] = some (.str "") ∧
    valueAt (getInitialState seedDefs seedObj) ["b"] = some (.boolean false) ∧
    valueAt (getInitialState seedDefs seedObj) ["c"] = some (.num 0) ∧
    valueAt (getInitialState seedDefs seedObj) ["d"] = some (.num 5) ∧
    valueAt (getInitialState seedDefs seedObj) ["e"] = some (.str "dflt") :=
  ⟨(getInitialState_seed_preference seedDefs seedObj ["a"] ⟨.str "x", []⟩ rfl).trans rfl,
   (getInitialState_seed_preference seedDefs seedObj ["b"] ⟨.boolean true, []⟩ rfl).trans rfl,
   (getInitialState_seed_preference seedDefs seedObj ["c"] ⟨.num 7, []⟩ rfl).trans rfl,
   (getInitialState_seed_preference seedDefs seedObj ["d"] ⟨.num 5, []⟩ rfl).trans rfl,
   (getInitialState_seed_preference seedDefs seedObj ["e"] ⟨.str "dflt", []⟩ rfl).trans rfl⟩

/-- Claim C7 counterexample: in the freshly derived initial state the
`touched` property is absent (`undefined`), not the boolean `false`, so
the claim "touched equal to false" fails on the very first leaf. -/
theorem initial_touched_not_false_counterexample :
    touchedAt (getInitialState staleDefs .undefined) ["a"] = some none ∧
    touchedAt (getInitialState staleDefs .undefined) ["a"] ≠ some (some false) := by
  refine ⟨rfl, ?_⟩
  intro h
  rw [show touchedAt (getInitialState staleDefs .undefined) ["a"] = some none from rfl] at h
  simp at h

/-- Claim C7 (amended): every leaf of the freshly derived initial state
has an absent (`undefined`) `touched` property — which every consumer
treats as untouched — an absent `error`, and the rules list of the
corresponding schema leaf carried over verbatim. -/
theorem getInitialState_flags (defs : Tree FieldDefinition) (seed : Value)
    (P : Path) (d : FieldDefinition) (h : leafAt P defs = some d) :
    touchedAt (getInitialState defs seed) P = some none ∧
    errorAt (getInitialState defs seed) P = some none ∧
    rulesAt (getInitialState defs seed) P = some d.rules := by
  refine ⟨?_, ?_, ?_⟩ <;>
    simp [touchedAt, errorAt, rulesAt, leafAt_getInitialState defs seed P d h]

/-- Witness for the amended C7 at a concrete schema and seed. -/
theorem getInitialState_flags_witness :
    touchedAt (getInitialState photoDefs photoSeed) ["picture"] = some none ∧
    errorAt (getInitialState photoDefs photoSeed) ["picture"] = some none ∧
    rulesAt (getInitialState photoDefs photoSeed) ["picture"] = some [photoRule] :=
  getInitialState_flags photoDefs photoSeed ["picture"] ⟨.undefined, [photoRule]⟩ rfl

/-- Claim C10: the aggregate `isTouched` counts a leaf only when its
touched flag is exactly `true`: any state whose leaves all have an
absent, undefined or `false` flag — in particular any state freshly
derived from a schema — yields `isTouched = false`. -/
theorem isTouched_only_counts_true :
    (∀ s : Tree FieldState,
       (∀ pf ∈ leavesOf ([] : Path) s, pf.2.touched ≠ some true) → isTouchedCalc s = false) ∧
    (∀ (defs : Tree FieldDefinition) (seed : Value),
       isTouchedCalc (getInitialState defs seed) = false) := by
  have main : ∀ s : Tree FieldState,
      (∀ pf ∈ leavesOf ([] : Path) s, pf.2.touched ≠ some true) → isTouchedCalc s = false := by
    intro s hs
    rw [isTouchedCalc, foldl_or_any]
    simp only [Bool.false_or, List.any_eq_false]
    intro pf hpf
    simpa using hs pf hpf
  refine ⟨main, fun defs seed => main _ ?_⟩
  intro pf hpf
  rw [getInitialState] at hpf
  rw [leavesOf_mapLeaves] at hpf
  obtain ⟨qf, _, hq⟩ := List.mem_map.mp hpf
  rw [← hq]
  simp

/-- Witness for C10: a concrete state mixing absent and `false` flags
is not touched, and neither is a freshly derived state. -/
theorem isTouched_only_counts_true_witness :
    isTouchedCalc (.branch (.cons "a" (.leaf ⟨.str "v", some false, none, []⟩)
        (.cons "b" (.leaf ⟨.undefined, none, none, []⟩) .nil))) = false ∧
    isTouchedCalc (getInitialState photoDefs photoSeed) = false :=
  ⟨isTouched_only_counts_true.1 _ (by decide), isTouched_only_counts_true.2 photoDefs photoSeed⟩

/-- Claim C1: `setValue(newValue, {runValidation: true})` on the leaf
binding at path P replaces the value at P, sets touched at P to `true`,
evaluates the binding's rule list (the leaf's rules) against the pair
of the new value and the whole-object value extracted from the state as
it stood immediately before this update, writes the first failing
message (or clears the error) at P, and resolves to `true` exactly when
that error is absent. -/
theorem setValue_runValidation_spec (s : Tree FieldState) (P : Path) (b : Binding)
    (v : Value) (hb : bindingAt s P = some b) :
    valueAt (setValueBody b v true s).1 P = some v ∧
    touchedAt (setValueBody b v true s).1 P = some (some true) ∧
    errorAt (setValueBody b v true s).1 P =
      some (maybeGetFirstValidationError v (extractValuesFromFieldsState s) b.rules) ∧
    (setValueBody b v true s).2 =
      some (maybeGetFirstValidationError v (extractValuesFromFieldsState s) b.rules).isNone := by
  obtain ⟨fs, hfs, hbe⟩ := Option.map_eq_some'.mp hb
  have hpath : b.path = P := by rw [← hbe]
  refine ⟨?_, ?_, ?_, ?_⟩ <;>
    simp [setValueBody, valueAt, touchedAt, errorAt, hpath, leafAt_updateLeafAt_self, hfs]

/-- Witness for C1, the specification scenario: seeding
`{description: null, picture: null}` and calling `setValue("bytes")`
with `runValidation: true` on `picture` records the cross-field error
and resolves to `false`. -/
theorem setValue_runValidation_spec_witness :
    bindingAt photoState ["picture"] = some photoBinding ∧
    valueAt (setValueBody photoBinding (.str "bytes") true photoState).1 ["picture"]
      = some (.str "bytes") ∧
    errorAt (setValueBody photoBinding (.str "bytes") true photoState).1 ["picture"]
      = some (some "To upload a photo, you need to add a description") ∧
    (setValueBody photoBinding (.str "bytes") true photoState).2 = some false :=
  ⟨rfl,
   (setValue_runValidation_spec photoState ["picture"] photoBinding (.str "bytes") rfl).1,
   ((setValue_runValidation_spec photoState ["picture"] photoBinding (.str "bytes") rfl).2.2.1).trans rfl,
   ((setValue_runValidation_spec photoState ["picture"] photoBinding (.str "bytes") rfl).2.2.2).trans rfl⟩

/-- Claim C2: two `setValue` invocations issued in the same batch (both
bindings synthesized from the pre-batch state) each transform the state
current when they execute: the final state holds both updates, and the
second invocation's whole-object view already contains the first
invocation's new value — no lost update from a bind-time snapshot. -/
theorem setValue_batch_no_lost_update (s : Tree FieldState) (P Q : Path)
    (bP bQ : Binding) (a b : Value) (hP : bindingAt s P = some bP)
    (hQ : bindingAt s Q = some bQ) (hPQ : P ≠ Q) :
    valueAt (setValueBody bQ b false (setValueBody bP a false s).1).1 P = some a ∧
    valueAt (setValueBody bQ b false (setValueBody bP a false s).1).1 Q = some b ∧
    getPath (extractValuesFromFieldsState (setValueBody bP a false s).1) P = a := by
  obtain ⟨fsP, hfsP, hbeP⟩ := Option.map_eq_some'.mp hP
  obtain ⟨fsQ, hfsQ, hbeQ⟩ := Option.map_eq_some'.mp hQ
  have hpP : bP.path = P := by rw [← hbeP]
  have hpQ : bQ.path = Q := by rw [← hbeQ]
  have hbody : ∀ (bb : Binding) (vv : Value) (st : Tree FieldState),
      (setValueBody bb vv false st).1 =
        updateLeafAt bb.path (fun fs => { fs with value := vv, touched := some true }) st := by
    intro bb vv st
    simp [setValueBody]
  have hs1 : leafAt P (setValueBody bP a false s).1 =
      some { fsP with value := a, touched := some true } := by
    rw [hbody, hpP, leafAt_updateLeafAt_self, hfsP]
    rfl
  refine ⟨?_, ?_, ?_⟩
  · rw [valueAt, hbody, hpQ, leafAt_updateLeafAt_other _ Q P _ (Ne.symm hPQ), hs1]
    rfl
  · have hQ1 : leafAt Q (setValueBody bP a false s).1 = some fsQ := by
      rw [hbody, hpP, leafAt_updateLeafAt_other _ P Q _ hPQ, hfsQ]
    rw [valueAt, hbody, hpQ, leafAt_updateLeafAt_self, hQ1]
    rfl
  · exact getPath_extract P _ _ hs1

/-- Witness for C2: on the two-leaf schema, setting `a` then `b` in one
batch keeps both values, and the second call's whole-object view holds
the first call's value. -/
theorem setValue_batch_no_lost_update_witness :
    valueAt (setValueBody ⟨["b"], .undefined, none, none, [required]⟩ (.str "second") false
        (setValueBody ⟨["a"], .undefined, none, none, [required]⟩ (.str "first") false
          pairState).1).1 ["a"] = some (.str "first") ∧
    valueAt (setValueBody ⟨["b"], .undefined, none, none, [required]⟩ (.str "second") false
        (setValueBody ⟨["a"], .undefined, none, none, [required]⟩ (.str "first") false
          pairState).1).1 ["b"] = some (.str "second") ∧
    getPath (extractValuesFromFieldsState
        (setValueBody ⟨["a"], .undefined, none, none, [required]⟩ (.str "first") false
          pairState).1) ["a"] = .str "first" :=
  setValue_batch_no_lost_update pairState ["a"] ["b"]
    ⟨["a"], .undefined, none, none, [required]⟩ ⟨["b"], .undefined, none, none, [required]⟩
    (.str "first") (.str "second") rfl rfl (by decide)

/-- Claim C8: `setValue(v)` with `runValidation` false or omitted sets
the value at P and touched at P to `true`, produces no result (`none`:
no promise is returned), leaves the error at P unchanged, and leaves
every other leaf's entire state unchanged. -/
theorem setValue_fire_and_forget (s : Tree FieldState) (P : Path) (b : Binding)
    (v : Value) (hb : bindingAt s P = some b) :
    valueAt (setValueBody b v false s).1 P = some v ∧
    touchedAt (setValueBody b v false s).1 P = some (some true) ∧
    errorAt (setValueBody b v false s).1 P = errorAt s P ∧
    (setValueBody b v false s).2 = none ∧
    ∀ q : Path, q ≠ P → leafAt q (setValueBody b v false s).1 = leafAt q s := by
  obtain ⟨fs, hfs, hbe⟩ := Option.map_eq_some'.mp hb
  have hpath : b.path = P := by rw [← hbe]
  refine ⟨?_, ?_, ?_, rfl, ?_⟩
  · simp [setValueBody, valueAt, hpath, leafAt_updateLeafAt_self, hfs]
  · simp [setValueBody, touchedAt, hpath, leafAt_updateLeafAt_self, hfs]
  · simp [setValueBody, errorAt, hpath, leafAt_updateLeafAt_self, hfs]
  · intro q hq
    rw [setValueBody, hpath]
    exact leafAt_updateLeafAt_other _ P q _ (Ne.symm hq)

/-- Witness for C8 on the two-leaf schema: the sibling leaf `b` is
untouched, no result is produced, and the error at `a` stays absent. -/
theorem setValue_fire_and_forget_witness :
    valueAt (setValueBody ⟨["a"], .undefined, none, none, [required]⟩ (.str "v") false
      pairState).1 ["a"] = some (.str "v") ∧
    errorAt (setValueBody ⟨["a"], .undefined, none, none, [required]⟩ (.str "v") false
      pairState).1 ["a"] = errorAt pairState ["a"] ∧
    (setValueBody ⟨["a"], .undefined, none, none, [required]⟩ (.str "v") false pairState).2
      = none ∧
    leafAt ["b"] (setValueBody ⟨["a"], .undefined, none, none, [required]⟩ (.str "v") false
      pairState).1 = leafAt ["b"] pairState :=
  ⟨(setValue_fire_and_forget pairState ["a"] _ (.str "v") rfl).1,
   (setValue_fire_and_forget pairState ["a"] _ (.str "v") rfl).2.2.1,
   (setValue_fire_and_forget pairState ["a"] _ (.str "v") rfl).2.2.2.1,
   (setValue_fire_and_forget pairState ["a"] _ (.str "v") rfl).2.2.2.2 ["b"] (by decide)⟩

/-- Claim C4 counterexample: a rule failing with the empty-string
message.  `runValidation` records the error `""` at the leaf — so a
leaf did produce an error — yet, because `if (error)` tests JavaScript
truthiness and `""` is falsy, the aggregate result still resolves to
`true`, contradicting "true exactly when zero leaves produced an
error". -/
theorem runValidation_empty_message_counterexample :
    errorAt (runValidationBody emptyMessageState).1 ["a"] = some (some "") ∧
    (runValidationBody emptyMessageState).2 = true :=
  ⟨rfl, rfl⟩

/-- Claim C4 (amended): whole-form validation evaluates every leaf's
rules against that leaf's value and the whole-object value extracted
from the one snapshot, records the first failing message (or none) at
each leaf, and always completes, resolving to `true` exactly when no
leaf produced a truthy error — an error message other than the empty
string; a leaf whose first failing message is `""` is recorded but does
not make the result `false`. -/
theorem runValidation_snapshot_spec (s : Tree FieldState) (P : Path) (fs : FieldState)
    (h : leafAt P s = some fs) :
    errorAt (runValidationBody s).1 P =
      some (maybeGetFirstValidationError fs.value (extractValuesFromFieldsState s) fs.rules) ∧
    ((runValidationBody s).2 = true ↔
      ∀ pf ∈ leavesOf ([] : Path) s,
        truthy (maybeGetFirstValidationError pf.2.value
          (extractValuesFromFieldsState s) pf.2.rules) = false) := by
  constructor
  · simp [runValidationBody, errorAt, leafAt_mapLeaves, h]
  · have hv : (runValidationBody s).2 =
        (leavesOf ([] : Path) s).foldl
          (fun acc pf =>
            if truthy (maybeGetFirstValidationError pf.2.value
              (extractValuesFromFieldsState s) pf.2.rules) then false else acc)
          true := rfl
    rw [hv, foldl_guard_false]
    simp only [Bool.true_and, List.all_eq_true, Bool.not_eq_true']

/-- Witness for the amended C4, the specification scenario
`{name: required, age: no rules}`: validation records the required
message at `name`, none at `age`, and resolves to `false`. -/
theorem runValidation_snapshot_spec_witness :
    errorAt (runValidationBody nameAgeState).1 ["name"]
      = some (some "This field is required") ∧
    errorAt (runValidationBody nameAgeState).1 ["age"] = some none ∧
    (runValidationBody nameAgeState).2 = false :=
  ⟨((runValidation_snapshot_spec nameAgeState ["name"] ⟨.undefined, none, none, [required]⟩
      rfl).1).trans rfl,
   ((runValidation_snapshot_spec nameAgeState ["age"] ⟨.undefined, none, none, []⟩
      rfl).1).trans rfl,
   rfl⟩

/-- Claim C5 counterexample: a reset override holding an explicit
`null` at the leaf path.  The override value is defined, so the claim
prescribes it as the new value, but `get(valueOverride, path) ?? value`
also discards `null` and the leaf falls back to its initial value
`5`. -/
theorem resetForm_null_override_counterexample :
    getPath nullOverride ["a"] = Value.null ∧
    valueAt (resetForm numInit nullOverride) ["a"] = some (.num 5) ∧
    valueAt (resetForm numInit nullOverride) ["a"] ≠ some Value.null := by
  refine ⟨rfl, rfl, ?_⟩
  intro h
  rw [show valueAt (resetForm numInit nullOverride) ["a"] = some (.num 5) from rfl] at h
  simp at h

/-- Claim C5 (amended): whole-form reset rebuilds the state from the
construction-time initial state; every leaf at path P takes the value
at P within the override when that value is defined and non-null, and
otherwise the value P held in the initial state; every leaf's error is
cleared and its touched flag set to `false`; with no override, a
subsequent value extraction equals the extraction of the initial
state. -/
theorem resetForm_spec :
    (∀ (init : Tree FieldState) (X : Value) (P : Path) (fs : FieldState),
       leafAt P init = some fs →
       leafAt P (resetForm init X) =
         some { value := nullishCoalesce (getPath X P) fs.value, touched := some false,
                error := none, rules := fs.rules }) ∧
    (∀ init : Tree FieldState,
       extractValuesFromFieldsState (resetForm init .undefined) =
         extractValuesFromFieldsState init) := by
  constructor
  · intro init X P fs h
    simp [resetForm, leafAt_mapLeaves, h]
  · intro init
    refine extract_mapLeaves_pres _ ?_ [] init
    intro p fs
    cases p <;> simp [getPath, nullishCoalesce, isNullish]

/-- Witness for the amended C5: a defined non-null override value is
taken, errors are cleared, touched becomes `false`, and the
no-override reset extracts to the initial extraction. -/
theorem resetForm_spec_witness :
    leafAt ["a"] (resetForm numInit (.obj [("a", .num 9)])) =
      some { value := .num 9, touched := some false, error := none,
             rules := ([] : List Rule) } ∧
    extractValuesFromFieldsState (resetForm numInit .undefined) =
      extractValuesFromFieldsState numInit :=
  ⟨(resetForm_spec.1 numInit (.obj [("a", .num 9)]) ["a"]
      ⟨.num 5, none, none, []⟩ rfl).trans rfl,
   resetForm_spec.2 numInit⟩

/-- Claim C6 (the claim is right, the code is wrong): the leaf
`validate()` binding validates the value captured when the binding was
synthesized, not the value current when it executes.  After
`a.setValue("x")` in the same batch, `validate()` on the binding
synthesized from the pre-batch state (where `a` was `undefined`) writes
"This field is required" at `a`, although evaluating the rules at the
current value `"x"` (with the same current whole-object value) yields
no error. -/
theorem validate_stale_value_divergence :
    bindingAt staleState0 ["a"] = some staleBinding ∧
    valueAt staleState1 ["a"] = some (.str "x") ∧
    errorAt (validateBody staleBinding staleState1) ["a"]
      = some (some "This field is required") ∧
    maybeGetFirstValidationError (.str "x")
      (extractValuesFromFieldsState staleState1) [required] = none ∧
    touchedAt (validateBody staleBinding staleState1) ["a"] = touchedAt staleState1 ["a"] :=
  ⟨rfl, rfl, rfl, rfl, rfl⟩

/-- Claim C9 counterexample: a pending coalesced notification (armed
timer) would be delivered by letting the timer fire and the effect run;
tearing the form down first makes the very same continuation deliver
nothing — the pending invocation is discarded, never flushed, and the
configuration offers no flag that could change this. -/
theorem teardown_drops_pending_counterexample :
    (debounceRun ⟨true, false, true, 0⟩ [.timerFire, .effectRun]).calls = 1 ∧
    (debounceRun ⟨true, false, true, 0⟩ [.unmount, .timerFire, .effectRun]).calls = 0 :=
  ⟨rfl, rfl⟩

/-- Claim C9 (amended): the configuration record has only
`onStateChange` and `delay` — there is no `callOnChangeOnTeardown`
option — and on teardown a pending coalesced `onStateChange`
invocation is always discarded: once the component is unmounted, no
sequence of timer firings, effect runs or further invocations ever
delivers the callback again. -/
theorem teardown_discards_pending (s : DebounceState) (evs : List DebounceEvent)
    (h : s.mounted = false) : (debounceRun s evs).calls = s.calls := by
  induction evs generalizing s with
  | nil => rfl
  | cons ev rest ih =>
    have hstep : (debounceStep s ev).mounted = false ∧ (debounceStep s ev).calls = s.calls := by
      cases ev
      · simp [debounceStep, h]
      · by_cases htp : s.timerPending = true <;> simp [debounceStep, h, htp]
      · simp [debounceStep, h]
      · simp [debounceStep, h]
    rw [debounceRun, List.foldl_cons, show List.foldl debounceStep (debounceStep s ev) rest
      = debounceRun (debounceStep s ev) rest from rfl, ih _ hstep.1, hstep.2]

/-- Witness for the amended C9: with a pending timer after unmount,
letting the timer fire, the effect run, and even re-invoking the
debounced function never increases the delivered-call count. -/
theorem teardown_discards_pending_witness :
    (⟨true, false, false, 3⟩ : DebounceState).mounted = false ∧
    (debounceRun ⟨true, false, false, 3⟩
      [.timerFire, .effectRun, .invoke, .timerFire, .effectRun]).calls = 3 :=
  ⟨rfl, teardown_discards_pending ⟨true, false, false, 3⟩
    [.timerFire, .effectRun, .invoke, .timerFire, .effectRun] rfl⟩

end ReactUseForm
